import Mathlib

/-!
Verification development for the libphoebe spectrum module
(`phoebe-lib/libphoebe/phoebe_spectra.h`).

The repository provides only the header; every function body is modelled
from the natural-language specification (dispersion laws, flux-conserving
rebinning, broadening, Doppler shift, arithmetic combinators, integration,
repository lookup).  Real-valued quantities of the C code (`double`) are
embedded as exact rationals `ℚ`, so "within a small numerical tolerance"
statements become exact equalities where the algorithm is exactly
conservative.  Memory allocation is modelled by an explicit allocator
predicate, and column storage independence by an explicit store of arrays.
-/

namespace PhoebeSpectra

/-- Dispersion law of a spectrum: tagged variant over LINEAR, LOG and
NONE (irregular sampling).  Mirrors `PHOEBE_spectrum_dispersion`. -/
inductive PHOEBE_spectrum_dispersion where
  | linear
  | log
  | none
deriving DecidableEq

/-- Modelled from the spec: the spectrum entity of `phoebe_types.h` (not in
the provided sources).  Two parallel numeric columns (wavelength and flux)
plus scalar metadata: dispersion law, nominal resolving power `R`, and the
valid wavelength range `[ll, ul]`.  The wavelength column holds the lower
edge of each bin; `ul` closes the last bin, so the bin edges of the
spectrum are `wl ++ [ul]` and `flux` holds the flux density of each bin. -/
structure PHOEBE_spectrum where
  disp : PHOEBE_spectrum_dispersion
  R : ℚ
  ll : ℚ
  ul : ℚ
  wl : List ℚ
  flux : List ℚ
deriving DecidableEq

/-- Error kinds reported by the module, one constructor per condition
enumerated by the error-handling design (success is `Except.ok`). -/
inductive PhoebeError where
  | invalidRange
  | invalidResolution
  | invalidParameter
  | invalidColumn
  | indeterminateDispersion
  | notFound
  | allocationFailure
deriving DecidableEq

/-- Bin edges of a spectrum: the wavelength column closed by `ul`. -/
def specEdges (S : PHOEBE_spectrum) : List ℚ := S.wl ++ [S.ul]

/-- Number of samples held by a spectrum (the `dim` metadata field). -/
def specDim (S : PHOEBE_spectrum) : Nat := S.wl.length

/-- Width of the intersection of the interval `[lo, hi]` with `[a, b]`. -/
def binOverlap (lo hi a b : ℚ) : ℚ := max 0 (min hi b - max lo a)

/-- Consecutive pairs of a list: `consPairs [a, b, c] = [(a, b), (b, c)]`.
Applied to an edge list it enumerates the bins. -/
def consPairs (L : List ℚ) : List (ℚ × ℚ) := L.zip L.tail

/-- Bins of a spectrum: each bin's edge pair paired with its flux density. -/
def specBins (S : PHOEBE_spectrum) : List ((ℚ × ℚ) × ℚ) :=
  (consPairs (specEdges S)).zip S.flux

/-- Overlap-weighted integral of a list of bins over the window `[a, b]`:
each bin contributes its flux density times the width of its intersection
with the window (bin-area summation). -/
def sumOverlap (bins : List ((ℚ × ℚ) × ℚ)) (a b : ℚ) : ℚ :=
  (bins.map (fun x => x.2 * binOverlap x.1.1 x.1.2 a b)).sum

/-- Definite integral of the flux density of a spectrum over `[a, b]`,
restricted to the overlap of the spectrum's grid with the window. -/
def integrateValue (S : PHOEBE_spectrum) (a b : ℚ) : ℚ :=
  sumOverlap (specBins S) a b

/-- Modelled from the spec: `phoebe_spectrum_integrate` (body not in the
provided sources).  Computes the definite integral of the flux density
over `[a, b]` by bin-area summation restricted to the overlap; fails with
an out-of-range condition if the window does not intersect the spectrum. -/
def phoebe_spectrum_integrate (S : PHOEBE_spectrum) (a b : ℚ) :
    Except PhoebeError ℚ :=
  if max a S.ll < min b S.ul then .ok (integrateValue S a b)
  else .error .invalidRange

/-- Count of multiplications by `q` needed to bring `x` to at least `ul`,
bounded by an explicit fuel (the analytic count for a logarithmic grid). -/
def logDimAux (ul q : ℚ) : Nat → ℚ → Nat
  | 0, _ => 0
  | fuel + 1, x => if ul ≤ x then 0 else logDimAux ul q fuel (x * q) + 1

/-- Number of logarithmic bins of ratio `q` needed to cover `[ll, ul]`:
the least `n` with `ll * q ^ n ≥ ul`.  The fuel bound comes from
Bernoulli's inequality. -/
def logDim (ll ul q : ℚ) : Nat :=
  logDimAux ul q (⌈(ul - ll) / (ll * (q - 1))⌉₊ + 1) ll

/-- Number of target bins of an analytic grid over `[ll, ul]` at resolving
power `R`: for LINEAR dispersion the bin width is `ll / R` (so that
`R = λ/Δλ` holds at the blue edge); for LOG dispersion the bin ratio is
`1 + 1/R`. -/
def targetDim (disp : PHOEBE_spectrum_dispersion) (ll ul R : ℚ) : Nat :=
  match disp with
  | .linear => ⌈(ul - ll) / (ll / R)⌉₊
  | .log => logDim ll ul (1 + 1 / R)
  | .none => 0

/-- An analytic edge grid: `d` generated lower edges followed by the
closing upper edge `ul` (the last bin is clamped to the requested range,
so edge bins are weighted by their actual width). -/
def gridList (g : Nat → ℚ) (d : Nat) (ul : ℚ) : List ℚ :=
  (List.range d).map g ++ [ul]

/-- Target bin edges computed analytically from the dispersion law, the
range `[ll, ul]` and the resolving power `R`. -/
def targetEdges (disp : PHOEBE_spectrum_dispersion) (ll ul R : ℚ) : List ℚ :=
  match disp with
  | .linear => gridList (fun k => ll + (k : ℚ) * (ll / R)) (targetDim .linear ll ul R) ul
  | .log => gridList (fun k => ll * (1 + 1 / R) ^ k) (targetDim .log ll ul R) ul
  | .none => []

/-- Flux densities of the rebinned spectrum: for each target bin, the
overlap-weighted integral of the source flux density across all source
bins intersecting the target bin, divided by the target bin width. -/
def rebinFlux (bins : List ((ℚ × ℚ) × ℚ)) (T : List ℚ) : List ℚ :=
  (consPairs T).map (fun p => sumOverlap bins p.1 p.2 / (p.2 - p.1))

/-- Modelled from the spec: `phoebe_spectrum_rebin` (body not in the
provided sources).  Regrids the source spectrum onto a target dispersion
law, range and resolution; each target bin receives the flux-conserving
overlap integral of the source flux density.  Fails with an invalid-range
condition when `ll ≥ ul`, an invalid-resolution condition when `R ≤ 0`,
and an indeterminate-dispersion condition when no analytic grid exists. -/
def phoebe_spectrum_rebin (S : PHOEBE_spectrum)
    (disp : PHOEBE_spectrum_dispersion) (ll ul R : ℚ) :
    Except PhoebeError PHOEBE_spectrum :=
  if ul ≤ ll then .error .invalidRange
  else if R ≤ 0 then .error .invalidResolution
  else if disp = .none then .error .indeterminateDispersion
  else
    .ok { disp := disp
          R := R
          ll := ll
          ul := ul
          wl := (targetEdges disp ll ul R).dropLast
          flux := rebinFlux (specBins S) (targetEdges disp ll ul R) }

/-- Modelled from the spec: `phoebe_spectrum_broaden` (body not in the
provided sources).  Instrumental broadening to resolving power `R`: only
degradation is allowed (`R` must not exceed the source resolution, else an
invalid-resolution condition); the source is first rebinned to a uniform
LOG grid matched to `R` and then convolved with a Gaussian kernel.  The
kernel math is an external numerics collaborator, abstracted by `conv`. -/
def phoebe_spectrum_broaden (conv : List ℚ → List ℚ) (S : PHOEBE_spectrum)
    (R : ℚ) : Except PhoebeError PHOEBE_spectrum :=
  if R ≤ 0 then .error .invalidResolution
  else if S.R < R then .error .invalidResolution
  else
    match phoebe_spectrum_rebin S .log S.ll S.ul R with
    | .error e => .error e
    | .ok Sr => .ok { Sr with flux := conv Sr.flux }

/-- Speed of light in m/s, the constant used by the Doppler transform. -/
def cLight : ℚ := 299792458

/-- Classical Doppler factor `1 + v/c` applied to every wavelength. -/
def dopplerFactor (v : ℚ) : ℚ := 1 + v / cLight

/-- Modelled from the spec: `phoebe_spectrum_apply_doppler_shift` (body
not in the provided sources).  Applies the rigid classical wavelength
shift `λ' = λ (1 + v/c)` to every sample and to the range metadata; flux
values are unchanged. -/
def phoebe_spectrum_apply_doppler_shift (S : PHOEBE_spectrum) (v : ℚ) :
    Except PhoebeError PHOEBE_spectrum :=
  .ok { S with
        wl := S.wl.map (fun w => w * dopplerFactor v)
        ll := S.ll * dopplerFactor v
        ul := S.ul * dopplerFactor v }

/-- Modelled from the spec: `phoebe_spectrum_apply_rotational_broadening`
(body not in the provided sources).  Negative `vsini` fails with an
invalid-parameter condition; `vsini = 0` is a no-op copy; otherwise the
spectrum is rebinned to a uniform LOG working grid and convolved with the
rotational kernel parameterized by `vsini` and the limb-darkening
coefficient `ldx` (kernel math is an external collaborator, abstracted by
`rconv`). -/
def phoebe_spectrum_apply_rotational_broadening
    (rconv : ℚ → ℚ → List ℚ → List ℚ) (S : PHOEBE_spectrum)
    (vsini ldx : ℚ) : Except PhoebeError PHOEBE_spectrum :=
  if vsini < 0 then .error .invalidParameter
  else if vsini = 0 then .ok S
  else
    match phoebe_spectrum_rebin S .log S.ll S.ul S.R with
    | .error e => .error e
    | .ok Sr => .ok { Sr with flux := rconv vsini ldx Sr.flux }

/-- Modelled from the spec: `phoebe_spectrum_crop` (body not in the
provided sources).  Truncates the spectrum to the samples within
`[a, b]`; fails with an out-of-range condition when nothing remains. -/
def phoebe_spectrum_crop (S : PHOEBE_spectrum) (a b : ℚ) :
    Except PhoebeError PHOEBE_spectrum :=
  if ((S.wl.zip S.flux).filter (fun p => a ≤ p.1 ∧ p.1 ≤ b)).isEmpty then
    .error .invalidRange
  else
    .ok { S with
          ll := max S.ll a
          ul := min S.ul b
          wl := ((S.wl.zip S.flux).filter (fun p => a ≤ p.1 ∧ p.1 ≤ b)).map Prod.fst
          flux := ((S.wl.zip S.flux).filter (fun p => a ≤ p.1 ∧ p.1 ≤ b)).map Prod.snd }

/-- Modelled from the spec: `phoebe_spectrum_multiply_by` (body not in
the provided sources).  Multiplies every flux value by a constant. -/
def phoebe_spectrum_multiply_by (S : PHOEBE_spectrum) (factor : ℚ) :
    Except PhoebeError PHOEBE_spectrum :=
  .ok { S with flux := S.flux.map (fun f => f * factor) }

/-- Modelled from the spec: `phoebe_spectrum_get_column` (body not in the
provided sources).  Column 0 is the wavelength column, column 1 the flux
column; any other index fails with an invalid-column condition. -/
def phoebe_spectrum_get_column (S : PHOEBE_spectrum) (col : Nat) :
    Except PhoebeError (List ℚ) :=
  if col = 0 then .ok S.wl
  else if col = 1 then .ok S.flux
  else .error .invalidColumn

/-- The operand with the finer (larger) resolving power; the arithmetic
combinators rebin the coarser operand onto the finer one's target grid. -/
def finerOf (s1 s2 : PHOEBE_spectrum) : PHOEBE_spectrum :=
  if s1.R < s2.R then s2 else s1

/-- Modelled from the spec: `phoebe_spectra_add` (body not in the provided
sources).  Both operands are rebinned onto the finer operand's grid over
the overlap of their ranges, then summed pointwise.  Fails with an
invalid-range condition when the overlap is empty and with an
allocation-failure condition when the destination cannot be sized
(`alloc` models the external allocator). -/
def phoebe_spectra_add (alloc : Nat → Bool) (s1 s2 : PHOEBE_spectrum) :
    Except PhoebeError PHOEBE_spectrum :=
  if min s1.ul s2.ul ≤ max s1.ll s2.ll then .error .invalidRange
  else if alloc (targetDim (finerOf s1 s2).disp (max s1.ll s2.ll)
      (min s1.ul s2.ul) (finerOf s1 s2).R) = false then .error .allocationFailure
  else do
    let a ← phoebe_spectrum_rebin s1 (finerOf s1 s2).disp (max s1.ll s2.ll)
      (min s1.ul s2.ul) (finerOf s1 s2).R
    let b ← phoebe_spectrum_rebin s2 (finerOf s1 s2).disp (max s1.ll s2.ll)
      (min s1.ul s2.ul) (finerOf s1 s2).R
    .ok { a with flux := List.zipWith (fun x y => x + y) a.flux b.flux }

/-- Modelled from the spec: `phoebe_spectra_subtract` (body not in the
provided sources).  As `phoebe_spectra_add` with a pointwise difference. -/
def phoebe_spectra_subtract (alloc : Nat → Bool) (s1 s2 : PHOEBE_spectrum) :
    Except PhoebeError PHOEBE_spectrum :=
  if min s1.ul s2.ul ≤ max s1.ll s2.ll then .error .invalidRange
  else if alloc (targetDim (finerOf s1 s2).disp (max s1.ll s2.ll)
      (min s1.ul s2.ul) (finerOf s1 s2).R) = false then .error .allocationFailure
  else do
    let a ← phoebe_spectrum_rebin s1 (finerOf s1 s2).disp (max s1.ll s2.ll)
      (min s1.ul s2.ul) (finerOf s1 s2).R
    let b ← phoebe_spectrum_rebin s2 (finerOf s1 s2).disp (max s1.ll s2.ll)
      (min s1.ul s2.ul) (finerOf s1 s2).R
    .ok { a with flux := List.zipWith (fun x y => x - y) a.flux b.flux }

/-- Modelled from the spec: `phoebe_spectra_merge` (body not in the
provided sources).  Weighted sum `w1·flux1 + w2·flux2` of both operands
resampled onto the common target range `[ll, ul]` at sampling `Rs`. -/
def phoebe_spectra_merge (alloc : Nat → Bool) (s1 s2 : PHOEBE_spectrum)
    (w1 w2 ll ul Rs : ℚ) : Except PhoebeError PHOEBE_spectrum :=
  if ul ≤ ll then .error .invalidRange
  else if alloc (targetDim s1.disp ll ul Rs) = false then .error .allocationFailure
  else do
    let a ← phoebe_spectrum_rebin s1 s1.disp ll ul Rs
    let b ← phoebe_spectrum_rebin s2 s1.disp ll ul Rs
    .ok { a with flux := List.zipWith (fun x y => w1 * x + w2 * y) a.flux b.flux }

/-- Modelled from the spec: `phoebe_spectra_multiply` (body not in the
provided sources).  Pointwise product after both operands are rebinned
onto the same `(ll, ul, R)` grid. -/
def phoebe_spectra_multiply (alloc : Nat → Bool) (s1 s2 : PHOEBE_spectrum)
    (ll ul R : ℚ) : Except PhoebeError PHOEBE_spectrum :=
  if ul ≤ ll then .error .invalidRange
  else if alloc (targetDim s1.disp ll ul R) = false then .error .allocationFailure
  else do
    let a ← phoebe_spectrum_rebin s1 s1.disp ll ul R
    let b ← phoebe_spectrum_rebin s2 s1.disp ll ul R
    .ok { a with flux := List.zipWith (fun x y => x * y) a.flux b.flux }

/-- One invocation of a destination-by-reference transform of the module,
carrying its source operands and parameters. -/
inductive SpectrumTransform where
  | rebinT (src : PHOEBE_spectrum) (disp : PHOEBE_spectrum_dispersion) (ll ul R : ℚ)
  | broadenT (src : PHOEBE_spectrum) (R : ℚ)
  | dopplerT (src : PHOEBE_spectrum) (v : ℚ)
  | rotT (src : PHOEBE_spectrum) (vsini ldx : ℚ)
  | cropT (src : PHOEBE_spectrum) (ll ul : ℚ)
  | mulByT (src : PHOEBE_spectrum) (factor : ℚ)
  | addT (s1 s2 : PHOEBE_spectrum)
  | subT (s1 s2 : PHOEBE_spectrum)
  | mergeT (s1 s2 : PHOEBE_spectrum) (w1 w2 ll ul Rs : ℚ)
  | mulT (s1 s2 : PHOEBE_spectrum) (ll ul R : ℚ)

/-- Result of one transform invocation, dispatching to the modelled entry
points (`alloc` models the external allocator, `conv` and `rconv` the
external convolution kernels). -/
def transformResult (alloc : Nat → Bool) (conv : List ℚ → List ℚ)
    (rconv : ℚ → ℚ → List ℚ → List ℚ) :
    SpectrumTransform → Except PhoebeError PHOEBE_spectrum
  | .rebinT s d ll ul R => phoebe_spectrum_rebin s d ll ul R
  | .broadenT s R => phoebe_spectrum_broaden conv s R
  | .dopplerT s v => phoebe_spectrum_apply_doppler_shift s v
  | .rotT s vs ld => phoebe_spectrum_apply_rotational_broadening rconv s vs ld
  | .cropT s a b => phoebe_spectrum_crop s a b
  | .mulByT s f => phoebe_spectrum_multiply_by s f
  | .addT a b => phoebe_spectra_add alloc a b
  | .subT a b => phoebe_spectra_subtract alloc a b
  | .mergeT a b w1 w2 ll ul Rs => phoebe_spectra_merge alloc a b w1 w2 ll ul Rs
  | .mulT a b ll ul R => phoebe_spectra_multiply alloc a b ll ul R

/-- Modelled from the spec: the destination-by-reference calling
convention of the transforms (double-pointer out-parameters, bodies not in
the provided sources).  The pair returned is the status reported to the
caller (`Option.none` is success) and the state of the destination handle
after the call: on success the prior allocation is released and the new
result installed; a failed transform returns before touching the
destination. -/
def runTransform (alloc : Nat → Bool) (conv : List ℚ → List ℚ)
    (rconv : ℚ → ℚ → List ℚ → List ℚ) (t : SpectrumTransform)
    (dest : Option PHOEBE_spectrum) :
    Option PhoebeError × Option PHOEBE_spectrum :=
  match transformResult alloc conv rconv t with
  | .ok s => (Option.none, some s)
  | .error e => (some e, dest)

/-- Return kind of a C entry point of `phoebe_spectra.h`: an `int` status
code, or a pointer (`PHOEBE_spectrum *`, `PHOEBE_vector *`, `char *`). -/
inductive CReturnKind where
  | statusInt
  | spectrumPtr
  | vectorPtr
  | charPtr
deriving DecidableEq

/-- The declared entry points of `phoebe_spectra.h` with their C return
kinds, transcribed from the header. -/
def headerEntryPoints : List (String × CReturnKind) :=
  [("query_spectra_repository", CReturnKind.statusInt),
   ("phoebe_spectrum_new", CReturnKind.spectrumPtr),
   ("phoebe_spectrum_new_from_file", CReturnKind.spectrumPtr),
   ("phoebe_spectrum_create", CReturnKind.spectrumPtr),
   ("phoebe_spectrum_duplicate", CReturnKind.spectrumPtr),
   ("phoebe_spectrum_get_column", CReturnKind.vectorPtr),
   ("phoebe_spectrum_new_from_repository", CReturnKind.statusInt),
   ("phoebe_spectrum_alloc", CReturnKind.statusInt),
   ("phoebe_spectrum_realloc", CReturnKind.statusInt),
   ("phoebe_spectrum_free", CReturnKind.statusInt),
   ("phoebe_spectrum_rebin", CReturnKind.statusInt),
   ("phoebe_spectrum_integrate", CReturnKind.statusInt),
   ("phoebe_spectrum_broaden", CReturnKind.statusInt),
   ("phoebe_spectrum_crop", CReturnKind.statusInt),
   ("phoebe_spectrum_apply_doppler_shift", CReturnKind.statusInt),
   ("phoebe_spectrum_apply_rotational_broadening", CReturnKind.statusInt),
   ("phoebe_spectrum_set_sampling", CReturnKind.statusInt),
   ("phoebe_spectrum_set_resolution", CReturnKind.statusInt),
   ("phoebe_spectrum_multiply_by", CReturnKind.statusInt),
   ("phoebe_spectrum_dispersion_guess", CReturnKind.statusInt),
   ("phoebe_spectrum_dispersion_type_get_name", CReturnKind.charPtr),
   ("phoebe_spectra_add", CReturnKind.statusInt),
   ("phoebe_spectra_subtract", CReturnKind.statusInt),
   ("phoebe_spectra_merge", CReturnKind.statusInt),
   ("phoebe_spectra_multiply", CReturnKind.statusInt)]

/-- A spectrum handle in the store-based model of column ownership:
column contents live in a store of arrays and the handle holds the two
array references plus the scalar metadata. -/
structure SpectrumHandle where
  wlRef : Nat
  fluxRef : Nat
  disp : PHOEBE_spectrum_dispersion
  R : ℚ
  ll : ℚ
  ul : ℚ
deriving DecidableEq

/-- Read the array held by a store slot (empty for an unallocated slot). -/
def storeRead (st : List (List ℚ)) (r : Nat) : List ℚ := st.getD r []

/-- Write one cell of the array held by a store slot. -/
def storeWrite (st : List (List ℚ)) (r i : Nat) (v : ℚ) : List (List ℚ) :=
  st.set r ((st.getD r []).set i v)

/-- Modelled from the spec: `phoebe_spectrum_duplicate` (body not in the
provided sources).  Deep copy: two fresh store slots are allocated holding
copies of both column contents, and the returned handle carries the same
metadata with the fresh references. -/
def phoebe_spectrum_duplicate (st : List (List ℚ)) (h : SpectrumHandle) :
    List (List ℚ) × SpectrumHandle :=
  (st ++ [storeRead st h.wlRef, storeRead st h.fluxRef],
   { h with wlRef := st.length, fluxRef := st.length + 1 })

/-- The repository tag of one synthetic spectrum record, transcribed from
`PHOEBE_specrep_tag` in the header: all six fields are C `int`s. -/
structure PHOEBE_specrep_tag where
  resolution : Int
  lambda_min : Int
  lambda_max : Int
  temperature : Int
  metallicity : Int
  gravity : Int
deriving DecidableEq

/-- Modelled from the spec: the candidate predicate of the repository
lookup (body of `phoebe_spectrum_new_from_repository` not in the provided
sources).  An exact match is required on the physical parameters `T`,
`g`, `M`; the requested resolution must not exceed the record's native
resolution, and `[ll, ul]` must fall inside the record's coverage. -/
def tag_matches (t : PHOEBE_specrep_tag) (R : ℚ) (T g M : Int)
    (ll ul : ℚ) : Bool :=
  decide (t.temperature = T) && decide (t.gravity = g) &&
  decide (t.metallicity = M) && decide (R ≤ (t.resolution : ℚ)) &&
  decide ((t.lambda_min : ℚ) ≤ ll) && decide (ul ≤ (t.lambda_max : ℚ))

/-- The records of a repository index satisfying a lookup request. -/
def repositoryCandidates (rep : List PHOEBE_specrep_tag) (R : ℚ)
    (T g M : Int) (ll ul : ℚ) : List PHOEBE_specrep_tag :=
  rep.filter (fun t => tag_matches t R T g M ll ul)

/-- Modelled from the spec: `phoebe_spectrum_new_from_repository` (body
not in the provided sources), restricted to record selection: returns the
matching record's tag, or a not-found condition when no record satisfies
the parameter tuple.  Loading the selected record is an external
collaborator's responsibility. -/
def phoebe_spectrum_new_from_repository (rep : List PHOEBE_specrep_tag)
    (R : ℚ) (T g M : Int) (ll ul : ℚ) :
    Except PhoebeError PHOEBE_specrep_tag :=
  match repositoryCandidates rep R T g M ll ul with
  | [] => .error .notFound
  | t :: _ => .ok t

/-- Decidable equality of transform results, by cases on the status. -/
instance : DecidableEq (Except PhoebeError PHOEBE_spectrum) := fun a b =>
  match a, b with
  | .ok x, .ok y => decidable_of_iff (x = y) (by simp)
  | .ok _, .error _ => isFalse (by simp)
  | .error _, .ok _ => isFalse (by simp)
  | .error x, .error y => decidable_of_iff (x = y) (by simp)

/-- Small concrete LOG-dispersion spectrum used as a test fixture. -/
def sampleSpectrum : PHOEBE_spectrum :=
  { disp := .log, R := 5, ll := 10, ul := 12, wl := [10, 11], flux := [1, 1] }

/-- Second concrete spectrum, disjoint in range from `sampleSpectrum`. -/
def sampleSpectrum2 : PHOEBE_spectrum :=
  { disp := .linear, R := 5, ll := 20, ul := 30, wl := [20, 25], flux := [1, 2] }

/-- Concrete repository tag used as a test fixture. -/
def sampleTag : PHOEBE_specrep_tag :=
  { resolution := 100, lambda_min := 4000, lambda_max := 5000,
    temperature := 5000, metallicity := 0, gravity := 45 }

/-- The concrete scenario source: a LINEAR-dispersion spectrum spanning
`[4000, 5000]` Å with 1000 samples of one Ångström each, and an arbitrary
flux column. -/
def c9Source (flux : List ℚ) : PHOEBE_spectrum :=
  { disp := .linear, R := 4000, ll := 4000, ul := 5000,
    wl := (List.range 1000).map (fun k => 4000 + (k : ℚ)), flux := flux }

/-- The repository index returned by a query, transcribed from
`PHOEBE_specrep` in the header: a record count and the sequence of tags. -/
structure PHOEBE_specrep where
  no : Int
  prop : List PHOEBE_specrep_tag

/-- Modelled from the spec: `query_spectra_repository` (body not in the
provided sources).  Scans the named repository and returns the populated
index (count + tags), or a not-found condition when the repository name
is unknown or unreadable; the storage traversal itself is an external
collaborator, abstracted by `store`. -/
def query_spectra_repository
    (store : String → Option (List PHOEBE_specrep_tag)) (rep_name : String) :
    Except PhoebeError PHOEBE_specrep :=
  match store rep_name with
  | Option.none => .error .notFound
  | some tags => .ok { no := (tags.length : Int), prop := tags }

/-- Modelled from the spec: `phoebe_spectrum_alloc` (body not in the
provided sources).  Sizes the backing storage of both columns to `dim`
samples; fails with the allocation-failure condition when the external
allocator cannot size it. -/
def phoebe_spectrum_alloc (allocator : Nat → Bool) (S : PHOEBE_spectrum)
    (dim : Nat) : Except PhoebeError PHOEBE_spectrum :=
  if allocator dim = false then .error .allocationFailure
  else .ok { S with wl := List.replicate dim 0, flux := List.replicate dim 0 }

/-- Modelled from the spec: `phoebe_spectrum_realloc` (body not in the
provided sources).  Resizes the backing storage to `dim` samples,
preserving the existing samples up to the overlap; fails with the
allocation-failure condition when the allocator cannot size it. -/
def phoebe_spectrum_realloc (allocator : Nat → Bool) (S : PHOEBE_spectrum)
    (dim : Nat) : Except PhoebeError PHOEBE_spectrum :=
  if allocator dim = false then .error .allocationFailure
  else .ok { S with
             wl := S.wl.take dim ++ List.replicate (dim - S.wl.length) 0
             flux := S.flux.take dim ++ List.replicate (dim - S.flux.length) 0 }

/-- Modelled from the spec: `phoebe_spectrum_free` (body not in the
provided sources).  Releases all owned storage and reports success. -/
def phoebe_spectrum_free (_S : PHOEBE_spectrum) : Except PhoebeError Unit :=
  .ok ()

/-- Modelled from the spec: `phoebe_spectrum_set_sampling` (body not in
the provided sources).  The sampling-rate field is not part of the spec's
data model (it lists dim, dispersion, resolution and range), so only the
status behaviour is modelled: a non-positive sampling rate fails with the
invalid-resolution condition and a valid one is accepted. -/
def phoebe_spectrum_set_sampling (S : PHOEBE_spectrum) (Rs : ℚ) :
    Except PhoebeError PHOEBE_spectrum :=
  if Rs ≤ 0 then .error .invalidResolution else .ok S

/-- Modelled from the spec: `phoebe_spectrum_set_resolution` (body not in
the provided sources).  Sets the nominal resolving power; `R ≤ 0` fails
with the invalid-resolution condition. -/
def phoebe_spectrum_set_resolution (S : PHOEBE_spectrum) (R : ℚ) :
    Except PhoebeError PHOEBE_spectrum :=
  if R ≤ 0 then .error .invalidResolution else .ok { S with R := R }

/-- All elements of a list equal (vacuously true when empty). -/
def allSameQ (L : List ℚ) : Bool :=
  match L with
  | [] => true
  | x :: xs => xs.all (fun y => y == x)

/-- Modelled from the spec: `phoebe_spectrum_dispersion_guess` (body not
in the provided sources).  Infers LINEAR when successive bin widths are
constant and LOG when successive ratios are constant (in the
exact-rational model the tolerance is zero), failing with the
indeterminate-dispersion condition when neither spacing model fits. -/
def phoebe_spectrum_dispersion_guess (S : PHOEBE_spectrum) :
    Except PhoebeError PHOEBE_spectrum_dispersion :=
  if allSameQ (List.zipWith (fun a b => b - a) S.wl S.wl.tail) then .ok .linear
  else if allSameQ (List.zipWith (fun a b => b / a) S.wl S.wl.tail) then .ok .log
  else .error .indeterminateDispersion

/-- Status carried by an entry point's result: `none` is success. -/
def statusOf {α : Type} : Except PhoebeError α → Option PhoebeError
  | .ok _ => Option.none
  | .error e => some e

/-- One invocation of each status-returning (`int`) entry point declared
in the header, with its arguments; the external collaborators — the
repository store, the allocator and the convolution kernels — are carried
as parameters of the invocation. -/
inductive StatusCall where
  | queryRepo (store : String → Option (List PHOEBE_specrep_tag)) (name : String)
  | newFromRepo (rep : List PHOEBE_specrep_tag) (R : ℚ) (T g M : Int) (ll ul : ℚ)
  | allocC (allocator : Nat → Bool) (S : PHOEBE_spectrum) (dim : Nat)
  | reallocC (allocator : Nat → Bool) (S : PHOEBE_spectrum) (dim : Nat)
  | freeC (S : PHOEBE_spectrum)
  | rebinC (S : PHOEBE_spectrum) (disp : PHOEBE_spectrum_dispersion) (ll ul R : ℚ)
  | integrateC (S : PHOEBE_spectrum) (ll ul : ℚ)
  | broadenC (conv : List ℚ → List ℚ) (S : PHOEBE_spectrum) (R : ℚ)
  | cropC (S : PHOEBE_spectrum) (ll ul : ℚ)
  | dopplerC (S : PHOEBE_spectrum) (v : ℚ)
  | rotC (rconv : ℚ → ℚ → List ℚ → List ℚ) (S : PHOEBE_spectrum) (vsini ldx : ℚ)
  | setSamplingC (S : PHOEBE_spectrum) (Rs : ℚ)
  | setResolutionC (S : PHOEBE_spectrum) (R : ℚ)
  | multiplyByC (S : PHOEBE_spectrum) (factor : ℚ)
  | dispersionGuessC (S : PHOEBE_spectrum)
  | addC (allocator : Nat → Bool) (s1 s2 : PHOEBE_spectrum)
  | subtractC (allocator : Nat → Bool) (s1 s2 : PHOEBE_spectrum)
  | mergeC (allocator : Nat → Bool) (s1 s2 : PHOEBE_spectrum) (w1 w2 ll ul Rs : ℚ)
  | multiplyC (allocator : Nat → Bool) (s1 s2 : PHOEBE_spectrum) (ll ul R : ℚ)

/-- The status reported by one entry-point invocation. -/
def callStatus : StatusCall → Option PhoebeError
  | .queryRepo store name => statusOf (query_spectra_repository store name)
  | .newFromRepo rep R T g M ll ul =>
      statusOf (phoebe_spectrum_new_from_repository rep R T g M ll ul)
  | .allocC a S d => statusOf (phoebe_spectrum_alloc a S d)
  | .reallocC a S d => statusOf (phoebe_spectrum_realloc a S d)
  | .freeC S => statusOf (phoebe_spectrum_free S)
  | .rebinC S disp ll ul R => statusOf (phoebe_spectrum_rebin S disp ll ul R)
  | .integrateC S ll ul => statusOf (phoebe_spectrum_integrate S ll ul)
  | .broadenC conv S R => statusOf (phoebe_spectrum_broaden conv S R)
  | .cropC S ll ul => statusOf (phoebe_spectrum_crop S ll ul)
  | .dopplerC S v => statusOf (phoebe_spectrum_apply_doppler_shift S v)
  | .rotC rc S vs ld =>
      statusOf (phoebe_spectrum_apply_rotational_broadening rc S vs ld)
  | .setSamplingC S Rs => statusOf (phoebe_spectrum_set_sampling S Rs)
  | .setResolutionC S R => statusOf (phoebe_spectrum_set_resolution S R)
  | .multiplyByC S f => statusOf (phoebe_spectrum_multiply_by S f)
  | .dispersionGuessC S => statusOf (phoebe_spectrum_dispersion_guess S)
  | .addC a s1 s2 => statusOf (phoebe_spectra_add a s1 s2)
  | .subtractC a s1 s2 => statusOf (phoebe_spectra_subtract a s1 s2)
  | .mergeC a s1 s2 w1 w2 ll ul Rs =>
      statusOf (phoebe_spectra_merge a s1 s2 w1 w2 ll ul Rs)
  | .multiplyC a s1 s2 ll ul R =>
      statusOf (phoebe_spectra_multiply a s1 s2 ll ul R)

/-- The header name of the entry point each invocation addresses. -/
def statusCallName : StatusCall → String
  | .queryRepo _ _ => "query_spectra_repository"
  | .newFromRepo _ _ _ _ _ _ _ => "phoebe_spectrum_new_from_repository"
  | .allocC _ _ _ => "phoebe_spectrum_alloc"
  | .reallocC _ _ _ => "phoebe_spectrum_realloc"
  | .freeC _ => "phoebe_spectrum_free"
  | .rebinC _ _ _ _ _ => "phoebe_spectrum_rebin"
  | .integrateC _ _ _ => "phoebe_spectrum_integrate"
  | .broadenC _ _ _ => "phoebe_spectrum_broaden"
  | .cropC _ _ _ => "phoebe_spectrum_crop"
  | .dopplerC _ _ => "phoebe_spectrum_apply_doppler_shift"
  | .rotC _ _ _ _ => "phoebe_spectrum_apply_rotational_broadening"
  | .setSamplingC _ _ => "phoebe_spectrum_set_sampling"
  | .setResolutionC _ _ => "phoebe_spectrum_set_resolution"
  | .multiplyByC _ _ => "phoebe_spectrum_multiply_by"
  | .dispersionGuessC _ => "phoebe_spectrum_dispersion_guess"
  | .addC _ _ _ => "phoebe_spectra_add"
  | .subtractC _ _ _ => "phoebe_spectra_subtract"
  | .mergeC _ _ _ _ _ _ _ _ => "phoebe_spectra_merge"
  | .multiplyC _ _ _ _ _ _ => "phoebe_spectra_multiply"

/- Helper lemmas: interval overlap, telescoping over an edge list, and
exchange of the two summations of the rebinning algorithm. -/

lemma binOverlap_clamp (lo hi a b : ℚ) (hab : a ≤ b) (hlh : lo ≤ hi) :
    binOverlap lo hi a b = min hi (max lo b) - min hi (max lo a) := by
  unfold binOverlap
  rcases le_total b lo with h1 | h1 <;> rcases le_total hi a with h2 | h2 <;>
    rcases le_total b hi with h3 | h3 <;> rcases le_total a lo with h4 | h4 <;>
    simp [min_def, max_def] <;> split_ifs <;> linarith

lemma consPairs_cons_cons (a b : ℚ) (L : List ℚ) :
    consPairs (a :: b :: L) = (a, b) :: consPairs (b :: L) := rfl

lemma consPairs_single (a : ℚ) : consPairs [a] = [] := rfl

lemma head_le_getLast : ∀ (T : List ℚ) (x u : ℚ),
    List.Chain' (· ≤ ·) (x :: T) → (x :: T).getLast? = some u → x ≤ u := by
  intro T
  induction T with
  | nil =>
    intro x u _ hu
    simp_all
  | cons y T ih =>
    intro x u hc hu
    rw [List.chain'_cons] at hc
    rw [List.getLast?_cons_cons] at hu
    exact le_trans hc.1 (ih y u hc.2 hu)

lemma clampSum (lo hi : ℚ) : ∀ (T : List ℚ) (x u : ℚ),
    List.Chain' (· ≤ ·) (x :: T) → (x :: T).getLast? = some u →
    ((consPairs (x :: T)).map (fun p => binOverlap lo hi p.1 p.2)).sum
      = min hi (max lo u) - min hi (max lo x) := by
  intro T
  induction T with
  | nil =>
    intro x u _ hu
    simp only [List.getLast?_singleton, Option.some_inj] at hu
    subst hu
    simp [consPairs_single]
  | cons y T ih =>
    intro x u hc hu
    rw [List.chain'_cons] at hc
    rw [List.getLast?_cons_cons] at hu
    by_cases hlh : lo ≤ hi
    · rw [consPairs_cons_cons, List.map_cons, List.sum_cons, ih y u hc.2 hu,
        binOverlap_clamp lo hi x y hc.1 hlh]
      ring
    · push_neg at hlh
      have hz : ∀ a b : ℚ, binOverlap lo hi a b = 0 := by
        intro a b
        unfold binOverlap
        apply max_eq_left
        have h1 : min hi b ≤ hi := min_le_left hi b
        have h2 : lo ≤ max lo a := le_max_left lo a
        linarith
      have hcl : ∀ t : ℚ, min hi (max lo t) = hi := by
        intro t
        have : hi ≤ max lo t := le_trans (le_of_lt hlh) (le_max_left lo t)
        exact min_eq_left this
      simp [hz, hcl]

lemma consPairs_bounds : ∀ (T : List ℚ) (x u : ℚ),
    List.Chain' (· < ·) (x :: T) → (x :: T).getLast? = some u →
    ∀ p ∈ consPairs (x :: T), x ≤ p.1 ∧ p.1 < p.2 ∧ p.2 ≤ u := by
  intro T
  induction T with
  | nil =>
    intro x u _ _ p hp
    simp [consPairs_single] at hp
  | cons y T ih =>
    intro x u hc hu p hp
    rw [List.chain'_cons] at hc
    rw [List.getLast?_cons_cons] at hu
    rw [consPairs_cons_cons, List.mem_cons] at hp
    have hyu : y ≤ u :=
      head_le_getLast T y u (hc.2.imp (fun a b h => le_of_lt h)) hu
    rcases hp with hp | hp
    · subst hp
      exact ⟨le_refl x, hc.1, hyu⟩
    · obtain ⟨h1, h2, h3⟩ := ih y u hc.2 hu p hp
      exact ⟨le_trans (le_of_lt hc.1) h1, h2, h3⟩

lemma sum_map_add_distrib {α : Type} (L : List α) (f g : α → ℚ) :
    (L.map (fun a => f a + g a)).sum = (L.map f).sum + (L.map g).sum := by
  induction L with
  | nil => simp
  | cons a L ih => simp [ih]; ring

lemma sum_map_mul_const {α : Type} (L : List α) (c : ℚ) (f : α → ℚ) :
    (L.map (fun a => c * f a)).sum = c * (L.map f).sum := by
  induction L with
  | nil => simp
  | cons a L ih => simp [ih]; ring

lemma mem_zip_left {α β : Type} : ∀ (L1 : List α) (L2 : List β)
    (p : α × β), p ∈ L1.zip L2 → p.1 ∈ L1 := by
  intro L1
  induction L1 with
  | nil =>
    intro L2 p hp
    simp [List.zip] at hp
  | cons a L1 ih =>
    intro L2 p hp
    cases L2 with
    | nil => simp [List.zip] at hp
    | cons b L2 =>
      rw [List.zip_cons_cons, List.mem_cons] at hp
      rcases hp with hp | hp
      · subst hp; exact List.mem_cons_self a L1
      · exact List.mem_cons_of_mem a (ih L2 p hp)

lemma chain'_consPairs_le : ∀ (L : List ℚ), List.Chain' (· ≤ ·) L →
    ∀ p ∈ consPairs L, p.1 ≤ p.2 := by
  intro L
  induction L with
  | nil => intro _ p hp; simp [consPairs] at hp
  | cons x L ih =>
    intro hc p hp
    cases L with
    | nil => simp [consPairs_single] at hp
    | cons y L =>
      rw [List.chain'_cons] at hc
      rw [consPairs_cons_cons, List.mem_cons] at hp
      rcases hp with hp | hp
      · subst hp; exact hc.1
      · exact ih hc.2 p hp

lemma zip_self_map {α β : Type} : ∀ (L : List α) (f : α → β),
    L.zip (L.map f) = L.map (fun a => (a, f a)) := by
  intro L
  induction L with
  | nil => intro f; simp
  | cons a L ih => intro f; simp [List.zip_cons_cons, ih]

lemma dropLast_append_getLast?_eq : ∀ (T : List ℚ) (u : ℚ),
    T.getLast? = some u → T.dropLast ++ [u] = T := by
  intro T
  induction T with
  | nil => intro u hu; simp at hu
  | cons x T ih =>
    intro u hu
    cases T with
    | nil =>
      simp only [List.getLast?_singleton, Option.some_inj] at hu
      subst hu
      simp
    | cons y T =>
      rw [List.getLast?_cons_cons] at hu
      have := ih u hu
      simp only [List.dropLast_cons₂, List.cons_append, this]

lemma sumOverlap_nil (a b : ℚ) : sumOverlap [] a b = 0 := rfl

lemma sumOverlap_cons (s : (ℚ × ℚ) × ℚ) (bins : List ((ℚ × ℚ) × ℚ))
    (a b : ℚ) : sumOverlap (s :: bins) a b
      = s.2 * binOverlap s.1.1 s.1.2 a b + sumOverlap bins a b := by
  unfold sumOverlap
  simp

lemma sumOverlap_partition (bins : List ((ℚ × ℚ) × ℚ))
    (hbins : ∀ p ∈ bins, p.1.1 ≤ p.1.2) (T : List ℚ) (x u : ℚ)
    (hc : List.Chain' (· ≤ ·) (x :: T)) (hu : (x :: T).getLast? = some u) :
    ((consPairs (x :: T)).map (fun p => sumOverlap bins p.1 p.2)).sum
      = sumOverlap bins x u := by
  induction bins with
  | nil => simp [sumOverlap_nil]
  | cons s bins ih =>
    have hs : s.1.1 ≤ s.1.2 := hbins s (List.mem_cons_self s bins)
    have hbins2 : ∀ p ∈ bins, p.1.1 ≤ p.1.2 := fun p hp =>
      hbins p (List.mem_cons_of_mem s hp)
    have hxu : x ≤ u := head_le_getLast T x u hc hu
    calc ((consPairs (x :: T)).map (fun p => sumOverlap (s :: bins) p.1 p.2)).sum
        = ((consPairs (x :: T)).map (fun p =>
            s.2 * binOverlap s.1.1 s.1.2 p.1 p.2 + sumOverlap bins p.1 p.2)).sum :=
          congrArg List.sum
            (List.map_congr_left (fun p _ => sumOverlap_cons s bins p.1 p.2))
      _ = ((consPairs (x :: T)).map (fun p =>
            s.2 * binOverlap s.1.1 s.1.2 p.1 p.2)).sum
          + ((consPairs (x :: T)).map (fun p => sumOverlap bins p.1 p.2)).sum :=
          sum_map_add_distrib _ _ _
      _ = s.2 * binOverlap s.1.1 s.1.2 x u + sumOverlap bins x u := by
          rw [ih hbins2, sum_map_mul_const,
            clampSum s.1.1 s.1.2 T x u hc hu,
            ← binOverlap_clamp s.1.1 s.1.2 x u hxu hs]
      _ = sumOverlap (s :: bins) x u := (sumOverlap_cons s bins x u).symm

lemma binOverlap_full (a b ll ul : ℚ) (h1 : ll ≤ a) (h2 : b ≤ ul)
    (h3 : a ≤ b) : binOverlap a b ll ul = b - a := by
  unfold binOverlap
  rw [min_eq_left h2, max_eq_left h1, max_eq_right (by linarith)]

/- Helper lemmas on the analytic target grids. -/

lemma logDimAux_spec (ul q : ℚ) : ∀ (fuel : Nat) (x : ℚ),
    ul ≤ x * q ^ fuel →
    ul ≤ x * q ^ (logDimAux ul q fuel x) ∧
      ∀ k < logDimAux ul q fuel x, x * q ^ k < ul := by
  intro fuel
  induction fuel with
  | zero =>
    intro x hx
    constructor
    · show ul ≤ x * q ^ (0 : Nat)
      simpa using hx
    · intro k hk
      simp [logDimAux] at hk
  | succ fuel ih =>
    intro x hx
    unfold logDimAux
    by_cases hul : ul ≤ x
    · rw [if_pos hul]
      refine ⟨by simpa using hul, ?_⟩
      intro k hk
      simp at hk
    · rw [if_neg hul]
      push_neg at hul
      have hx2 : ul ≤ x * q * q ^ fuel := by
        have : x * q ^ (fuel + 1) = x * q * q ^ fuel := by ring
        linarith [hx, this.symm.le, this.le]
      obtain ⟨h1, h2⟩ := ih (x * q) hx2
      constructor
      · have : x * q * q ^ (logDimAux ul q fuel (x * q))
            = x * q ^ (logDimAux ul q fuel (x * q) + 1) := by ring
        linarith [h1, this.le, this.symm.le]
      · intro k hk
        cases k with
        | zero => simpa using hul
        | succ j =>
          have hj : j < logDimAux ul q fuel (x * q) := by omega
          have := h2 j hj
          have he : x * q * q ^ j = x * q ^ (j + 1) := by ring
          linarith [this, he.le, he.symm.le]

lemma logDim_spec (ll ul q : ℚ) (h0 : 0 < ll) (hlt : ll < ul) (hq : 1 < q) :
    ul ≤ ll * q ^ (logDim ll ul q) ∧
      ∀ k < logDim ll ul q, ll * q ^ k < ul := by
  apply logDimAux_spec
  set m : Nat := ⌈(ul - ll) / (ll * (q - 1))⌉₊ + 1 with hm
  have hd : 0 < ll * (q - 1) := by
    apply mul_pos h0
    linarith
  have hb : 1 + (m : ℚ) * (q - 1) ≤ (1 + (q - 1)) ^ m :=
    one_add_mul_le_pow (by linarith) m
  have hm2 : (ul - ll) / (ll * (q - 1)) ≤ (m : ℚ) := by
    have h1 : (ul - ll) / (ll * (q - 1)) ≤ (⌈(ul - ll) / (ll * (q - 1))⌉₊ : ℚ) :=
      Nat.le_ceil _
    have h2 : ((⌈(ul - ll) / (ll * (q - 1))⌉₊ : ℚ)) ≤ (m : ℚ) := by
      rw [hm]
      push_cast
      linarith
    linarith
  have hmul : ul - ll ≤ (m : ℚ) * (ll * (q - 1)) := by
    rw [div_le_iff hd] at hm2
    linarith
  have hpow : (1 + (q - 1)) ^ m = q ^ m := by norm_num
  have : ll * (1 + (m : ℚ) * (q - 1)) ≤ ll * q ^ m := by
    rw [← hpow]
    exact mul_le_mul_of_nonneg_left hb (le_of_lt h0)
  nlinarith [this, hmul]

lemma chain'_map_range (g : Nat → ℚ) (d : Nat)
    (hmono : ∀ k, k + 1 < d → g k < g (k + 1)) :
    List.Chain' (· < ·) ((List.range d).map g) := by
  cases d with
  | zero => simp
  | succ m =>
    rw [List.chain'_map]
    exact (List.chain'_range_succ _ m).mpr (fun k hk => hmono k (by omega))

lemma gridList_spec (g : Nat → ℚ) (d : Nat) (ll ul : ℚ) (hd : 0 < d)
    (hg0 : g 0 = ll) (hmono : ∀ k, k + 1 < d → g k < g (k + 1))
    (hlast : g (d - 1) < ul) :
    ∃ T2, gridList g d ul = ll :: T2 ∧
      List.Chain' (· < ·) (ll :: T2) ∧ (ll :: T2).getLast? = some ul := by
  obtain ⟨m, rfl⟩ : ∃ m, d = m + 1 := ⟨d - 1, by omega⟩
  have hshape : gridList g (m + 1) ul
      = ll :: ((List.range m).map (fun k => g (k + 1)) ++ [ul]) := by
    unfold gridList
    rw [List.range_succ_eq_map, List.map_cons, List.map_map, hg0]
    simp [Function.comp]
  refine ⟨(List.range m).map (fun k => g (k + 1)) ++ [ul], hshape, ?_, ?_⟩
  · rw [← hshape]
    unfold gridList
    apply List.chain'_append.mpr
    refine ⟨chain'_map_range g (m + 1) hmono, List.chain'_singleton ul, ?_⟩
    intro x hx y hy
    simp at hy
    subst hy
    rw [List.range_succ, List.map_append] at hx
    simp at hx
    rw [← hx]
    simpa using hlast
  · rw [← hshape]
    unfold gridList
    simp

lemma targetEdges_spec (disp : PHOEBE_spectrum_dispersion) (ll ul R : ℚ)
    (h0 : 0 < ll) (hlt : ll < ul) (hR : 0 < R)
    (hd : disp ≠ PHOEBE_spectrum_dispersion.none) :
    ∃ T2, targetEdges disp ll ul R = ll :: T2 ∧
      List.Chain' (· < ·) (ll :: T2) ∧ (ll :: T2).getLast? = some ul := by
  cases disp with
  | none => exact absurd rfl hd
  | linear =>
    have hdl : 0 < ll / R := div_pos h0 hR
    have hpos : 0 < (ul - ll) / (ll / R) := div_pos (by linarith) hdl
    have hdim : 0 < targetDim .linear ll ul R := by
      unfold targetDim
      exact Nat.ceil_pos.mpr hpos
    apply gridList_spec _ _ _ _ hdim (by simp)
    · intro k hk
      have : (k : ℚ) < (k : ℚ) + 1 := by linarith
      have h2 : ((k : ℚ) + 1) = ((k + 1 : Nat) : ℚ) := by push_cast; ring
      nlinarith [hdl, this]
    · have hlt2 : (targetDim .linear ll ul R - 1 : Nat) < targetDim .linear ll ul R := by
        omega
      have hcast : ((targetDim .linear ll ul R - 1 : Nat) : ℚ) < (ul - ll) / (ll / R) := by
        rw [← Nat.lt_ceil]
        unfold targetDim at hlt2 ⊢
        exact hlt2
      have := (lt_div_iff hdl).mp hcast
      linarith
  | log =>
    have hq : 1 < 1 + 1 / R := by
      have : 0 < 1 / R := by positivity
      linarith
    obtain ⟨hup, hdown⟩ := logDim_spec ll ul (1 + 1 / R) h0 hlt hq
    have hdim : 0 < logDim ll ul (1 + 1 / R) := by
      rcases Nat.eq_zero_or_pos (logDim ll ul (1 + 1 / R)) with h | h
      · rw [h] at hup
        simp at hup
        linarith
      · exact h
    apply gridList_spec _ _ _ _ (by simp only [targetDim]; exact hdim) (by simp)
    · intro k hk
      have hp : (0 : ℚ) < (1 + 1 / R) ^ k := by positivity
      have hqs : (1 + 1 / R) ^ (k + 1) = (1 + 1 / R) ^ k * (1 + 1 / R) := by ring
      have h2 : (1 + 1 / R) ^ k < (1 + 1 / R) ^ (k + 1) := by
        rw [hqs]
        nlinarith [hp, hq]
      exact mul_lt_mul_of_pos_left h2 h0
    · simp only [targetDim]
      exact hdown _ (by omega)

lemma targetEdges_length (disp : PHOEBE_spectrum_dispersion) (ll ul R : ℚ)
    (hd : disp ≠ PHOEBE_spectrum_dispersion.none) :
    (targetEdges disp ll ul R).length = targetDim disp ll ul R + 1 := by
  cases disp with
  | none => exact absurd rfl hd
  | linear => simp [targetEdges, gridList]
  | log => simp [targetEdges, gridList]

lemma sumOverlap_selfmap (P : List (ℚ × ℚ)) (F : ℚ × ℚ → ℚ) (a b : ℚ) :
    sumOverlap (P.map (fun p => (p, F p))) a b
      = (P.map (fun p => F p * binOverlap p.1 p.2 a b)).sum := by
  unfold sumOverlap
  rw [List.map_map]
  rfl

lemma specBins_of_wf (S : PHOEBE_spectrum)
    (hwf : List.Chain' (· ≤ ·) (specEdges S)) :
    ∀ p ∈ specBins S, p.1.1 ≤ p.1.2 := by
  intro p hp
  have h1 : p.1 ∈ consPairs (specEdges S) :=
    mem_zip_left (consPairs (specEdges S)) S.flux p hp
  exact chain'_consPairs_le (specEdges S) hwf p.1 h1

/-- Core correctness of the modelled rebinning: under a well-formed
source grid and a valid target, rebinning succeeds, the result spans
exactly `[ll, ul]` at resolution `R` with the analytic sample count, and
the bin-area integral of the result over `[ll, ul]` equals that of the
source (exact flux conservation of the overlap-integral resampling). -/
lemma rebin_ok_and_integral (S : PHOEBE_spectrum)
    (disp : PHOEBE_spectrum_dispersion) (ll ul R : ℚ)
    (hwf : List.Chain' (· ≤ ·) (specEdges S)) (h0 : 0 < ll) (hlt : ll < ul)
    (hR : 0 < R) (hd : disp ≠ PHOEBE_spectrum_dispersion.none) :
    ∃ Sr, phoebe_spectrum_rebin S disp ll ul R = .ok Sr ∧
      Sr.disp = disp ∧ Sr.R = R ∧ Sr.ll = ll ∧ Sr.ul = ul ∧
      specDim Sr = targetDim disp ll ul R ∧
      integrateValue Sr ll ul = integrateValue S ll ul := by
  obtain ⟨T2, hT, hchain, hlastT⟩ := targetEdges_spec disp ll ul R h0 hlt hR hd
  have hnot1 : ¬ (ul ≤ ll) := not_le.mpr hlt
  have hnot2 : ¬ (R ≤ 0) := not_le.mpr hR
  have hrw : phoebe_spectrum_rebin S disp ll ul R
      = .ok { disp := disp, R := R, ll := ll, ul := ul,
              wl := (targetEdges disp ll ul R).dropLast,
              flux := rebinFlux (specBins S) (targetEdges disp ll ul R) } := by
    simp only [phoebe_spectrum_rebin, if_neg hnot1, if_neg hnot2, if_neg hd]
  refine ⟨_, hrw, rfl, rfl, rfl, rfl, ?_, ?_⟩
  · show ((targetEdges disp ll ul R).dropLast).length = targetDim disp ll ul R
    rw [List.length_dropLast, targetEdges_length disp ll ul R hd]
    omega
  · show integrateValue
      { disp := disp, R := R, ll := ll, ul := ul,
        wl := (targetEdges disp ll ul R).dropLast,
        flux := rebinFlux (specBins S) (targetEdges disp ll ul R) } ll ul
      = integrateValue S ll ul
    have hlast' : (targetEdges disp ll ul R).getLast? = some ul := by
      rw [hT]; exact hlastT
    have hedges : (targetEdges disp ll ul R).dropLast ++ [ul]
        = targetEdges disp ll ul R :=
      dropLast_append_getLast?_eq _ ul hlast'
    have hbins : ∀ p ∈ specBins S, p.1.1 ≤ p.1.2 := specBins_of_wf S hwf
    unfold integrateValue
    have hzip : specBins
        { disp := disp, R := R, ll := ll, ul := ul,
          wl := (targetEdges disp ll ul R).dropLast,
          flux := rebinFlux (specBins S) (targetEdges disp ll ul R) }
        = (consPairs (targetEdges disp ll ul R)).map
            (fun p => (p, sumOverlap (specBins S) p.1 p.2 / (p.2 - p.1))) := by
      show (consPairs ((targetEdges disp ll ul R).dropLast ++ [ul])).zip
          (rebinFlux (specBins S) (targetEdges disp ll ul R)) = _
      rw [hedges]
      unfold rebinFlux
      exact zip_self_map _ _
    rw [hzip, sumOverlap_selfmap]
    have hcongr : ∀ p ∈ consPairs (targetEdges disp ll ul R),
        sumOverlap (specBins S) p.1 p.2 / (p.2 - p.1) * binOverlap p.1 p.2 ll ul
        = sumOverlap (specBins S) p.1 p.2 := by
      intro p hp
      rw [hT] at hp
      obtain ⟨hb1, hb2, hb3⟩ := consPairs_bounds T2 ll ul hchain hlastT p hp
      rw [binOverlap_full p.1 p.2 ll ul hb1 hb3 (le_of_lt hb2)]
      exact div_mul_cancel₀ _ (by linarith)
    rw [List.map_congr_left hcongr]
    have hchain2 : List.Chain' (· ≤ ·) (ll :: T2) :=
      hchain.imp (fun a b h => le_of_lt h)
    have hpart := sumOverlap_partition (specBins S) hbins T2 ll ul hchain2 hlastT
    rw [hT]
    exact hpart

lemma rebin_ok_fields (S : PHOEBE_spectrum)
    (disp : PHOEBE_spectrum_dispersion) (ll ul R : ℚ) (Sr : PHOEBE_spectrum)
    (h : phoebe_spectrum_rebin S disp ll ul R = .ok Sr) :
    Sr.disp = disp ∧ Sr.R = R ∧ Sr.ll = ll ∧ Sr.ul = ul := by
  unfold phoebe_spectrum_rebin at h
  split_ifs at h with h1 h2 h3 <;> simp only [Except.ok.injEq, reduceCtorEq] at h
  rw [← h]
  exact ⟨rfl, rfl, rfl, rfl⟩

/-- C1: for every well-formed spectrum and every valid rebin target whose
window meets the source coverage, rebinning succeeds and integrating the
rebinned spectrum over `[ll, ul]` returns exactly the same value as
integrating the original spectrum over `[ll, ul]` (the overlap-weighted
integral resampling is flux-integral-preserving; in the exact-rational
model the tolerance is zero). -/
theorem rebin_preserves_integral (S : PHOEBE_spectrum)
    (disp : PHOEBE_spectrum_dispersion) (ll ul R : ℚ)
    (hwf : List.Chain' (· ≤ ·) (specEdges S)) (h0 : 0 < ll) (hlt : ll < ul)
    (hR : 0 < R) (hd : disp ≠ PHOEBE_spectrum_dispersion.none)
    (hover : max ll S.ll < min ul S.ul) :
    ∃ Sr, phoebe_spectrum_rebin S disp ll ul R = .ok Sr ∧
      phoebe_spectrum_integrate Sr ll ul = phoebe_spectrum_integrate S ll ul ∧
      phoebe_spectrum_integrate S ll ul = .ok (integrateValue S ll ul) := by
  obtain ⟨Sr, hok, hdsp, hRf, hll, hul, hdim, hint⟩ :=
    rebin_ok_and_integral S disp ll ul R hwf h0 hlt hR hd
  have hS : phoebe_spectrum_integrate S ll ul = .ok (integrateValue S ll ul) := by
    unfold phoebe_spectrum_integrate
    rw [if_pos hover]
  refine ⟨Sr, hok, ?_, hS⟩
  unfold phoebe_spectrum_integrate
  rw [hll, hul, max_self, min_self, if_pos hlt, if_pos hover, hint]

/-- Witness for C1 at a concrete spectrum and rebin target. -/
theorem rebin_preserves_integral_witness :
    ∃ Sr, phoebe_spectrum_rebin sampleSpectrum2 .linear 21 29 10 = .ok Sr ∧
      phoebe_spectrum_integrate Sr 21 29
        = phoebe_spectrum_integrate sampleSpectrum2 21 29 ∧
      phoebe_spectrum_integrate sampleSpectrum2 21 29
        = .ok (integrateValue sampleSpectrum2 21 29) :=
  rebin_preserves_integral sampleSpectrum2 .linear 21 29 10
    (by norm_num [sampleSpectrum2, specEdges, List.chain'_cons])
    (by norm_num) (by norm_num) (by norm_num) (by decide)
    (by norm_num [sampleSpectrum2, max_def, min_def])

unseal Rat.add Rat.sub Rat.mul Rat.inv in
/-- Counterexample to C2 as stated: with `R1 = R2` (an instance of
`R1 ≥ R2`) broadening to `R2` and then broadening the result to `R1`
succeeds instead of failing — the model only rejects a request that
strictly exceeds the source resolution. -/
theorem broaden_same_resolution_succeeds :
    (5 : ℚ) ≤ 5 ∧
    ((phoebe_spectrum_broaden (fun f => f) sampleSpectrum 5).bind
      (fun s => phoebe_spectrum_broaden (fun f => f) s 5)).toOption.isSome
      = true := by decide

/-- C2 (amended): broadening can only strictly degrade resolution — if
broadening `S` to resolution `R2` succeeded, a further broadening request
at any strictly finer resolution `R1 > R2` fails with the
invalid-resolution condition. -/
theorem broaden_sharpen_fails (conv conv2 : List ℚ → List ℚ)
    (S S2 : PHOEBE_spectrum) (R1 R2 : ℚ)
    (h1 : phoebe_spectrum_broaden conv S R2 = .ok S2) (h12 : R2 < R1) :
    phoebe_spectrum_broaden conv2 S2 R1 = .error .invalidResolution := by
  unfold phoebe_spectrum_broaden at h1
  by_cases hr0 : R2 ≤ 0
  · rw [if_pos hr0] at h1
    exact absurd h1 (by simp)
  · rw [if_neg hr0] at h1
    by_cases hsr : S.R < R2
    · rw [if_pos hsr] at h1
      exact absurd h1 (by simp)
    · rw [if_neg hsr] at h1
      cases hm : phoebe_spectrum_rebin S .log S.ll S.ul R2 with
      | error e =>
        rw [hm] at h1
        exact absurd h1 (by simp)
      | ok Sr =>
        rw [hm] at h1
        simp only [Except.ok.injEq] at h1
        have hSrR : Sr.R = R2 :=
          (rebin_ok_fields S .log S.ll S.ul R2 Sr hm).2.1
        have hS2R : S2.R = R2 := by
          rw [← h1]
          exact hSrR
        unfold phoebe_spectrum_broaden
        push_neg at hr0
        rw [if_neg (show ¬ R1 ≤ 0 by push_neg; linarith),
          if_pos (show S2.R < R1 by rw [hS2R]; exact h12)]

unseal Rat.add Rat.sub Rat.mul Rat.inv in
/-- Witness for the amended C2 at a concrete spectrum. -/
theorem broaden_sharpen_fails_witness :
    phoebe_spectrum_broaden (fun f => f)
      { disp := .log, R := 4, ll := 10, ul := 12, wl := [10], flux := [1] } 8
      = .error .invalidResolution := by
  apply broaden_sharpen_fails (fun f => f) (fun f => f) sampleSpectrum _ 8 4
  · decide
  · norm_num

unseal Rat.add Rat.sub Rat.mul Rat.inv in
/-- Counterexample to C3 as stated: the classical Doppler round trip does
not reproduce the wavelength grid within floating-point tolerance — at
`v = c/2` the round trip returns wavelengths scaled by `3/4`, a 25 %
deviation. -/
theorem doppler_roundtrip_not_exact :
    ((phoebe_spectrum_apply_doppler_shift sampleSpectrum (cLight / 2)).bind
      (fun s => phoebe_spectrum_apply_doppler_shift s (-(cLight / 2))))
      = .ok { disp := .log, R := 5, ll := 15/2, ul := 9,
              wl := [15/2, 33/4], flux := [1, 1] }
    ∧ sampleSpectrum.wl = [10, 11]
    ∧ ¬ ((10 : ℚ) - 15/2 ≤ 1/100 * 10) := by decide

/-- C3 (amended): the Doppler round trip scales every wavelength (and the
range metadata) by exactly `1 - (v/c)^2` — equal to the original grid only
to second order in `v/c` (exactly at `v = 0`) — while the flux column is
unchanged by either application. -/
theorem doppler_roundtrip_secondOrder (S : PHOEBE_spectrum) (v : ℚ) :
    (phoebe_spectrum_apply_doppler_shift S v).bind
      (fun s => phoebe_spectrum_apply_doppler_shift s (-v))
    = .ok { S with
            wl := S.wl.map (fun w => w * (1 - (v / cLight) ^ 2))
            ll := S.ll * (1 - (v / cLight) ^ 2)
            ul := S.ul * (1 - (v / cLight) ^ 2) } := by
  unfold phoebe_spectrum_apply_doppler_shift
  simp only [Except.bind, Except.ok.injEq, List.map_map]
  have hf : ∀ w : ℚ, w * dopplerFactor v * dopplerFactor (-v)
      = w * (1 - (v / cLight) ^ 2) := by
    intro w
    unfold dopplerFactor
    ring
  simp only [PHOEBE_spectrum.mk.injEq]
  refine ⟨trivial, trivial, hf S.ll, hf S.ul, ?_, trivial⟩
  exact List.map_congr_left (fun w _ => hf w)

/-- C7: rotational broadening with `vsini = 0` succeeds and is a no-op
copy of the source, for every limb-darkening coefficient and every
external kernel implementation. -/
theorem rotational_broadening_zero_vsini_noop
    (rconv : ℚ → ℚ → List ℚ → List ℚ) (S : PHOEBE_spectrum) (ldx : ℚ) :
    phoebe_spectrum_apply_rotational_broadening rconv S 0 ldx = .ok S := by
  unfold phoebe_spectrum_apply_rotational_broadening
  rw [if_neg (lt_irrefl 0), if_pos rfl]

/-- C4: each of the four arithmetic combinators fails with the
invalid-range status when its target window is empty (`ll ≥ ul`; for add
and subtract the window is the overlap of the operands' ranges), and with
the allocation-failure status when the allocator cannot size the
destination of an otherwise valid request. -/
theorem combinators_error_conditions (alloc : Nat → Bool)
    (s1 s2 : PHOEBE_spectrum) (w1 w2 ll ul Rs R2 : ℚ) :
    (min s1.ul s2.ul ≤ max s1.ll s2.ll →
      phoebe_spectra_add alloc s1 s2 = .error .invalidRange ∧
      phoebe_spectra_subtract alloc s1 s2 = .error .invalidRange) ∧
    (ul ≤ ll →
      phoebe_spectra_merge alloc s1 s2 w1 w2 ll ul Rs = .error .invalidRange ∧
      phoebe_spectra_multiply alloc s1 s2 ll ul R2 = .error .invalidRange) ∧
    (max s1.ll s2.ll < min s1.ul s2.ul →
      alloc (targetDim (finerOf s1 s2).disp (max s1.ll s2.ll)
        (min s1.ul s2.ul) (finerOf s1 s2).R) = false →
      phoebe_spectra_add alloc s1 s2 = .error .allocationFailure ∧
      phoebe_spectra_subtract alloc s1 s2 = .error .allocationFailure) ∧
    (ll < ul → alloc (targetDim s1.disp ll ul Rs) = false →
      phoebe_spectra_merge alloc s1 s2 w1 w2 ll ul Rs
        = .error .allocationFailure) ∧
    (ll < ul → alloc (targetDim s1.disp ll ul R2) = false →
      phoebe_spectra_multiply alloc s1 s2 ll ul R2
        = .error .allocationFailure) := by
  refine ⟨?_, ?_, ?_, ?_, ?_⟩
  · intro h
    constructor
    · unfold phoebe_spectra_add
      rw [if_pos h]
    · unfold phoebe_spectra_subtract
      rw [if_pos h]
  · intro h
    constructor
    · unfold phoebe_spectra_merge
      rw [if_pos h]
    · unfold phoebe_spectra_multiply
      rw [if_pos h]
  · intro h halloc
    constructor
    · unfold phoebe_spectra_add
      rw [if_neg (not_le.mpr h), if_pos halloc]
    · unfold phoebe_spectra_subtract
      rw [if_neg (not_le.mpr h), if_pos halloc]
  · intro h halloc
    unfold phoebe_spectra_merge
    rw [if_neg (not_le.mpr h), if_pos halloc]
  · intro h halloc
    unfold phoebe_spectra_multiply
    rw [if_neg (not_le.mpr h), if_pos halloc]

/-- Witness for C4: a disjoint-range addition fails with the
invalid-range status, and a merge whose destination cannot be allocated
fails with the allocation-failure status. -/
theorem combinators_error_conditions_witness :
    phoebe_spectra_add (fun _ => true) sampleSpectrum sampleSpectrum2
      = .error .invalidRange ∧
    phoebe_spectra_merge (fun _ => false) sampleSpectrum sampleSpectrum2
      1 1 10 12 5 = .error .allocationFailure :=
  ⟨((combinators_error_conditions (fun _ => true) sampleSpectrum sampleSpectrum2
      1 1 10 12 5 5).1 (by decide)).1,
   ((combinators_error_conditions (fun _ => false) sampleSpectrum sampleSpectrum2
      1 1 10 12 5 5).2.2.2.1) (by decide) rfl⟩

/-- C5: a transform invocation that reports a failure status leaves the
destination handle either unchanged or cleanly deallocated, never
partially written. -/
theorem failed_transform_leaves_dest (alloc : Nat → Bool)
    (conv : List ℚ → List ℚ) (rconv : ℚ → ℚ → List ℚ → List ℚ)
    (t : SpectrumTransform) (dest : Option PHOEBE_spectrum) (e : PhoebeError)
    (h : (runTransform alloc conv rconv t dest).1 = some e) :
    (runTransform alloc conv rconv t dest).2 = dest ∨
      (runTransform alloc conv rconv t dest).2 = Option.none := by
  unfold runTransform at h ⊢
  cases htr : transformResult alloc conv rconv t with
  | ok s =>
    rw [htr] at h
    simp at h
  | error e2 => exact Or.inl rfl

/-- Witness for C5: a rebin invocation with an inverted range fails and
the destination handle is untouched. -/
theorem failed_transform_leaves_dest_witness :
    (runTransform (fun _ => true) (fun f => f) (fun _ _ f => f)
      (SpectrumTransform.rebinT sampleSpectrum .linear 12 10 5)
      (some sampleSpectrum2)).2 = some sampleSpectrum2 ∨
    (runTransform (fun _ => true) (fun f => f) (fun _ _ f => f)
      (SpectrumTransform.rebinT sampleSpectrum .linear 12 10 5)
      (some sampleSpectrum2)).2 = Option.none :=
  failed_transform_leaves_dest (fun _ => true) (fun f => f) (fun _ _ f => f)
    (SpectrumTransform.rebinT sampleSpectrum .linear 12 10 5)
    (some sampleSpectrum2) .invalidRange (by decide)

/-- Counterexample to C8 as stated: not every entry point declared in
`phoebe_spectra.h` reports its outcome through an `int` status return —
the constructors and accessors (e.g. `phoebe_spectrum_new`) return
pointers, which cannot carry one of the enumerated error kinds. -/
theorem not_every_entry_point_returns_status :
    ¬ (∀ e ∈ headerEntryPoints, e.2 = CReturnKind.statusInt) := by decide

lemma statusOf_enum {α : Type} (r : Except PhoebeError α) :
    statusOf r = Option.none ∨
    statusOf r = some .invalidRange ∨
    statusOf r = some .invalidResolution ∨
    statusOf r = some .invalidParameter ∨
    statusOf r = some .invalidColumn ∨
    statusOf r = some .indeterminateDispersion ∨
    statusOf r = some .notFound ∨
    statusOf r = some .allocationFailure := by
  cases r with
  | ok a => exact Or.inl rfl
  | error e =>
    cases e
    · exact Or.inr (Or.inl rfl)
    · exact Or.inr (Or.inr (Or.inl rfl))
    · exact Or.inr (Or.inr (Or.inr (Or.inl rfl)))
    · exact Or.inr (Or.inr (Or.inr (Or.inr (Or.inl rfl))))
    · exact Or.inr (Or.inr (Or.inr (Or.inr (Or.inr (Or.inl rfl)))))
    · exact Or.inr (Or.inr (Or.inr (Or.inr (Or.inr (Or.inr (Or.inl rfl))))))
    · exact Or.inr (Or.inr (Or.inr (Or.inr (Or.inr (Or.inr (Or.inr rfl))))))

/-- C8 (amended): every entry point of the header that returns an `int`
status is covered by the modelled invocation family (each such header
entry has an invocation carrying its name), and every invocation of the
family reports success or one of the seven enumerated error kinds through
its return status — never anything else, and never by throwing (the model
is total). -/
theorem status_entry_points_enumerated :
    (∀ e ∈ headerEntryPoints, e.2 = CReturnKind.statusInt →
      ∃ c : StatusCall, statusCallName c = e.1) ∧
    (∀ c : StatusCall,
      callStatus c = Option.none ∨
      callStatus c = some .invalidRange ∨
      callStatus c = some .invalidResolution ∨
      callStatus c = some .invalidParameter ∨
      callStatus c = some .invalidColumn ∨
      callStatus c = some .indeterminateDispersion ∨
      callStatus c = some .notFound ∨
      callStatus c = some .allocationFailure) := by
  constructor
  · intro e he hi
    fin_cases he
    · exact ⟨.queryRepo (fun _ => Option.none) "", rfl⟩
    · exact absurd hi (by decide)
    · exact absurd hi (by decide)
    · exact absurd hi (by decide)
    · exact absurd hi (by decide)
    · exact absurd hi (by decide)
    · exact ⟨.newFromRepo [] 1 0 0 0 1 2, rfl⟩
    · exact ⟨.allocC (fun _ => true) sampleSpectrum 1, rfl⟩
    · exact ⟨.reallocC (fun _ => true) sampleSpectrum 1, rfl⟩
    · exact ⟨.freeC sampleSpectrum, rfl⟩
    · exact ⟨.rebinC sampleSpectrum .linear 10 12 5, rfl⟩
    · exact ⟨.integrateC sampleSpectrum 10 12, rfl⟩
    · exact ⟨.broadenC (fun f => f) sampleSpectrum 5, rfl⟩
    · exact ⟨.cropC sampleSpectrum 10 12, rfl⟩
    · exact ⟨.dopplerC sampleSpectrum 0, rfl⟩
    · exact ⟨.rotC (fun _ _ f => f) sampleSpectrum 0 0, rfl⟩
    · exact ⟨.setSamplingC sampleSpectrum 1, rfl⟩
    · exact ⟨.setResolutionC sampleSpectrum 1, rfl⟩
    · exact ⟨.multiplyByC sampleSpectrum 2, rfl⟩
    · exact ⟨.dispersionGuessC sampleSpectrum, rfl⟩
    · exact absurd hi (by decide)
    · exact ⟨.addC (fun _ => true) sampleSpectrum sampleSpectrum, rfl⟩
    · exact ⟨.subtractC (fun _ => true) sampleSpectrum sampleSpectrum, rfl⟩
    · exact ⟨.mergeC (fun _ => true) sampleSpectrum sampleSpectrum 1 1 10 12 5, rfl⟩
    · exact ⟨.multiplyC (fun _ => true) sampleSpectrum sampleSpectrum 10 12 5, rfl⟩
  · intro c
    cases c <;> (unfold callStatus; exact statusOf_enum _)

/-- Witness for the amended C8: the `phoebe_spectrum_rebin` header entry
is status-returning and covered by the invocation family, and a concrete
rebin invocation reports one of the enumerated statuses. -/
theorem status_entry_points_enumerated_witness :
    (∃ c : StatusCall, statusCallName c = "phoebe_spectrum_rebin") ∧
    (callStatus (StatusCall.rebinC sampleSpectrum .linear 12 10 5) = Option.none ∨
     callStatus (StatusCall.rebinC sampleSpectrum .linear 12 10 5)
       = some .invalidRange ∨
     callStatus (StatusCall.rebinC sampleSpectrum .linear 12 10 5)
       = some .invalidResolution ∨
     callStatus (StatusCall.rebinC sampleSpectrum .linear 12 10 5)
       = some .invalidParameter ∨
     callStatus (StatusCall.rebinC sampleSpectrum .linear 12 10 5)
       = some .invalidColumn ∨
     callStatus (StatusCall.rebinC sampleSpectrum .linear 12 10 5)
       = some .indeterminateDispersion ∨
     callStatus (StatusCall.rebinC sampleSpectrum .linear 12 10 5)
       = some .notFound ∨
     callStatus (StatusCall.rebinC sampleSpectrum .linear 12 10 5)
       = some .allocationFailure) :=
  ⟨status_entry_points_enumerated.1
      ("phoebe_spectrum_rebin", CReturnKind.statusInt) (by decide) rfl,
   status_entry_points_enumerated.2
      (StatusCall.rebinC sampleSpectrum .linear 12 10 5)⟩

/- Helper lemmas on the column store used by the duplication model. -/

lemma storeRead_append_left : ∀ (st L : List (List ℚ)) (r : Nat),
    r < st.length → storeRead (st ++ L) r = storeRead st r := by
  intro st
  induction st with
  | nil =>
    intro L r hr
    simp at hr
  | cons a st ih =>
    intro L r hr
    cases r with
    | zero => rfl
    | succ r2 =>
      show storeRead (st ++ L) r2 = storeRead st r2
      exact ih L r2 (by simpa using hr)

lemma storeRead_append_fst : ∀ (st : List (List ℚ)) (a b : List ℚ),
    storeRead (st ++ [a, b]) st.length = a := by
  intro st
  induction st with
  | nil => intro a b; rfl
  | cons x st ih => intro a b; exact ih a b

lemma storeRead_append_snd : ∀ (st : List (List ℚ)) (a b : List ℚ),
    storeRead (st ++ [a, b]) (st.length + 1) = b := by
  intro st
  induction st with
  | nil => intro a b; rfl
  | cons x st ih => intro a b; exact ih a b

lemma storeRead_storeWrite_ne : ∀ (st : List (List ℚ)) (r j i : Nat) (v : ℚ),
    r ≠ j → storeRead (storeWrite st j i v) r = storeRead st r := by
  intro st
  induction st with
  | nil =>
    intro r j i v _
    rfl
  | cons a st ih =>
    intro r j i v hrj
    cases j with
    | zero =>
      cases r with
      | zero => exact absurd rfl hrj
      | succ r2 => rfl
    | succ j2 =>
      cases r with
      | zero => rfl
      | succ r2 =>
        show storeRead (storeWrite st j2 i v) r2 = storeRead st r2
        exact ih r2 j2 i v (by omega)

/-- C6: duplication is a deep copy — the duplicate holds samples equal to
the source in both columns and every metadata field, its backing
references are fresh and distinct from the source's, and mutating a cell
through the copy's references leaves the source's columns unchanged, and
vice versa. -/
theorem duplicate_deep_copy (st : List (List ℚ)) (h : SpectrumHandle)
    (hw : h.wlRef < st.length) (hf : h.fluxRef < st.length) :
    (storeRead (phoebe_spectrum_duplicate st h).1
        (phoebe_spectrum_duplicate st h).2.wlRef = storeRead st h.wlRef ∧
      storeRead (phoebe_spectrum_duplicate st h).1
        (phoebe_spectrum_duplicate st h).2.fluxRef = storeRead st h.fluxRef ∧
      (phoebe_spectrum_duplicate st h).2.disp = h.disp ∧
      (phoebe_spectrum_duplicate st h).2.R = h.R ∧
      (phoebe_spectrum_duplicate st h).2.ll = h.ll ∧
      (phoebe_spectrum_duplicate st h).2.ul = h.ul) ∧
    ((phoebe_spectrum_duplicate st h).2.wlRef ≠ h.wlRef ∧
      (phoebe_spectrum_duplicate st h).2.wlRef ≠ h.fluxRef ∧
      (phoebe_spectrum_duplicate st h).2.fluxRef ≠ h.wlRef ∧
      (phoebe_spectrum_duplicate st h).2.fluxRef ≠ h.fluxRef ∧
      (phoebe_spectrum_duplicate st h).2.wlRef
        ≠ (phoebe_spectrum_duplicate st h).2.fluxRef) ∧
    (∀ i v,
      storeRead (storeWrite (phoebe_spectrum_duplicate st h).1
          (phoebe_spectrum_duplicate st h).2.wlRef i v) h.wlRef
        = storeRead st h.wlRef ∧
      storeRead (storeWrite (phoebe_spectrum_duplicate st h).1
          (phoebe_spectrum_duplicate st h).2.fluxRef i v) h.fluxRef
        = storeRead st h.fluxRef) ∧
    (∀ i v,
      storeRead (storeWrite (phoebe_spectrum_duplicate st h).1 h.wlRef i v)
          (phoebe_spectrum_duplicate st h).2.wlRef
        = storeRead st h.wlRef ∧
      storeRead (storeWrite (phoebe_spectrum_duplicate st h).1 h.fluxRef i v)
          (phoebe_spectrum_duplicate st h).2.fluxRef
        = storeRead st h.fluxRef) := by
  unfold phoebe_spectrum_duplicate
  refine ⟨⟨?_, ?_, rfl, rfl, rfl, rfl⟩, ⟨?_, ?_, ?_, ?_, ?_⟩, ?_, ?_⟩
  · exact storeRead_append_fst st _ _
  · exact storeRead_append_snd st _ _
  · show st.length ≠ h.wlRef
    omega
  · show st.length ≠ h.fluxRef
    omega
  · show st.length + 1 ≠ h.wlRef
    omega
  · show st.length + 1 ≠ h.fluxRef
    omega
  · show st.length ≠ st.length + 1
    omega
  · intro i v
    constructor
    · rw [storeRead_storeWrite_ne _ _ _ _ _ (by omega : h.wlRef ≠ st.length)]
      exact storeRead_append_left st _ h.wlRef hw
    · rw [storeRead_storeWrite_ne _ _ _ _ _ (by omega : h.fluxRef ≠ st.length + 1)]
      exact storeRead_append_left st _ h.fluxRef hf
  · intro i v
    constructor
    · rw [storeRead_storeWrite_ne _ _ _ _ _ (by omega : st.length ≠ h.wlRef)]
      exact storeRead_append_fst st _ _
    · rw [storeRead_storeWrite_ne _ _ _ _ _ (by omega : st.length + 1 ≠ h.fluxRef)]
      exact storeRead_append_snd st _ _

/-- Witness for C6 at a concrete store and handle: the duplicate's
wavelength column equals the source's, and writing through the
duplicate's wavelength reference leaves the source column unchanged. -/
theorem duplicate_deep_copy_witness :
    storeRead (phoebe_spectrum_duplicate [[1], [2]]
        { wlRef := 0, fluxRef := 1, disp := .linear, R := 1, ll := 1, ul := 2 }).1
      (phoebe_spectrum_duplicate [[1], [2]]
        { wlRef := 0, fluxRef := 1, disp := .linear, R := 1, ll := 1, ul := 2 }).2.wlRef
      = storeRead [[1], [2]] 0 ∧
    storeRead (storeWrite (phoebe_spectrum_duplicate [[1], [2]]
        { wlRef := 0, fluxRef := 1, disp := .linear, R := 1, ll := 1, ul := 2 }).1
      (phoebe_spectrum_duplicate [[1], [2]]
        { wlRef := 0, fluxRef := 1, disp := .linear, R := 1, ll := 1, ul := 2 }).2.wlRef
      0 7) 0 = storeRead [[1], [2]] 0 :=
  ⟨(duplicate_deep_copy [[1], [2]]
      { wlRef := 0, fluxRef := 1, disp := .linear, R := 1, ll := 1, ul := 2 }
      (by decide) (by decide)).1.1,
   ((duplicate_deep_copy [[1], [2]]
      { wlRef := 0, fluxRef := 1, disp := .linear, R := 1, ll := 1, ul := 2 }
      (by decide) (by decide)).2.2.1 0 7).1⟩

unseal Rat.add Rat.sub Rat.mul Rat.inv in
/-- Counterexample to C10 as stated: two lookup requests whose `R` round
to the same integer (99.9 and 100.1 both round to 100) select different
candidate sets against a record of native resolution 100, because the
comparison `R ≤ resolution` is carried out on the real-valued request. -/
theorem tag_matching_not_round_invariant :
    round (999/10 : ℚ) = round (1001/10 : ℚ) ∧
    repositoryCandidates [sampleTag] (999/10) 5000 45 0 4500 4900
      ≠ repositoryCandidates [sampleTag] (1001/10) 5000 45 0 4500 4900 := by
  decide

/-- C10 (amended): the integer tag fields can only distinguish requests
at the granularity of `⌈R⌉`, `⌊ll⌋` and `⌈ul⌉` — two lookup requests that
agree on those three integers select exactly the same candidate records
(the physical parameters `T`, `g`, `M` are already integers in the API). -/
theorem tag_matching_ceil_floor_invariant (rep : List PHOEBE_specrep_tag)
    (R R2 ll ll2 ul ul2 : ℚ) (T g M : Int)
    (hR : ⌈R⌉ = ⌈R2⌉) (hll : ⌊ll⌋ = ⌊ll2⌋) (hul : ⌈ul⌉ = ⌈ul2⌉) :
    repositoryCandidates rep R T g M ll ul
      = repositoryCandidates rep R2 T g M ll2 ul2 := by
  unfold repositoryCandidates
  apply List.filter_congr
  intro t _
  unfold tag_matches
  have h1 : decide (R ≤ (t.resolution : ℚ)) = decide (R2 ≤ (t.resolution : ℚ)) := by
    apply decide_eq_decide.mpr
    rw [← Int.ceil_le, ← Int.ceil_le, hR]
  have h2 : decide ((t.lambda_min : ℚ) ≤ ll)
      = decide ((t.lambda_min : ℚ) ≤ ll2) := by
    apply decide_eq_decide.mpr
    rw [← Int.le_floor, ← Int.le_floor, hll]
  have h3 : decide (ul ≤ (t.lambda_max : ℚ))
      = decide (ul2 ≤ (t.lambda_max : ℚ)) := by
    apply decide_eq_decide.mpr
    rw [← Int.ceil_le, ← Int.ceil_le, hul]
  rw [h1, h2, h3]

lemma logDim_eq (ll ul q : ℚ) (h0 : 0 < ll) (hlt : ll < ul) (hq : 1 < q)
    (n : Nat) (hup : ul ≤ ll * q ^ n) (hdown : ll * q ^ (n - 1) < ul)
    (hn : 0 < n) : logDim ll ul q = n := by
  obtain ⟨h1, h2⟩ := logDim_spec ll ul q h0 hlt hq
  by_contra hne
  rcases lt_or_gt_of_ne hne with hlt2 | hgt
  · have hle : logDim ll ul q ≤ n - 1 := by omega
    have hpow : q ^ (logDim ll ul q) ≤ q ^ (n - 1) :=
      pow_le_pow_right (le_of_lt hq) hle
    have hm : ll * q ^ (logDim ll ul q) ≤ ll * q ^ (n - 1) :=
      mul_le_mul_of_nonneg_left hpow (le_of_lt h0)
    linarith [h1, hdown, hm]
  · have := h2 n hgt
    linarith [hup]

lemma targetDim_scenario :
    targetDim PHOEBE_spectrum_dispersion.log 4500 4800 10000 = 646 := by
  show logDim 4500 4800 (1 + 1 / 10000) = 646
  have hq : (1 + 1 / 10000 : ℚ) = 10001 / 10000 := by norm_num
  rw [hq]
  apply logDim_eq 4500 4800 (10001 / 10000) (by norm_num) (by norm_num)
    (by norm_num) 646 ?_ ?_ (by norm_num)
  · rw [div_pow, ← mul_div_assoc, le_div_iff (by positivity)]
    norm_num
  · show (4500 : ℚ) * (10001 / 10000) ^ (645 : Nat) < 4800
    rw [div_pow, ← mul_div_assoc, div_lt_iff (by positivity)]
    norm_num

lemma log_scenario_bound : |(646 : ℝ) - 10000 * Real.log (4800 / 4500)| ≤ 1 := by
  have habs16 : |(1 / 16 : ℝ)| = 1 / 16 := abs_of_pos (by norm_num)
  have hx : |(1 / 16 : ℝ)| < 1 := by
    rw [habs16]
    norm_num
  have h := Real.abs_log_sub_add_sum_range_le hx 3
  rw [habs16, Finset.sum_range_succ, Finset.sum_range_succ, Finset.sum_range_succ,
    Finset.sum_range_zero] at h
  norm_num at h
  have h2 : Real.log (15 / 16 : ℝ) = -Real.log (16 / 15) := by
    rw [← Real.log_inv]
    norm_num
  rw [h2] at h
  have habs := abs_le.mp h
  have hL : Real.log ((4800 : ℝ) / 4500) = Real.log (16 / 15) := by norm_num
  rw [hL, abs_le]
  constructor <;> linarith [habs.1, habs.2]

set_option maxRecDepth 8000 in
/-- C9: rebinning the LINEAR spectrum spanning `[4000, 5000]` Å with 1000
samples to LOG dispersion at `R = 10000` over `[4500, 4800]` Å succeeds
with a sample count of 646, which matches `ln(4800/4500)·R ≈ 645.4`
within one sample, and the integrated flux of the result over the window
equals the source's integral over the same physical window exactly — in
particular within the claimed 1 % relative tolerance — for every flux
column. -/
theorem rebin_concrete_scenario (flux : List ℚ) :
    ∃ Sr, phoebe_spectrum_rebin (c9Source flux)
        PHOEBE_spectrum_dispersion.log 4500 4800 10000 = .ok Sr ∧
      specDim Sr = 646 ∧
      |(646 : ℝ) - 10000 * Real.log (4800 / 4500)| ≤ 1 ∧
      integrateValue Sr 4500 4800 = integrateValue (c9Source flux) 4500 4800 ∧
      |integrateValue Sr 4500 4800 - integrateValue (c9Source flux) 4500 4800|
        ≤ (1 / 100) * |integrateValue (c9Source flux) 4500 4800| := by
  obtain ⟨T2, hT, hchain, hlastT⟩ :=
    gridList_spec (fun k => 4000 + (k : ℚ)) 1000 4000 5000 (by norm_num)
      (by norm_num)
      (by
        intro k hk
        push_cast
        linarith)
      (by norm_num)
  have hwf : List.Chain' (· ≤ ·) (specEdges (c9Source flux)) := by
    have hsh : specEdges (c9Source flux)
        = gridList (fun k => 4000 + (k : ℚ)) 1000 5000 := rfl
    rw [hsh, hT]
    exact hchain.imp (fun a b h => le_of_lt h)
  obtain ⟨Sr, hok, hdsp, hRf, hll, hul, hdim, hint⟩ :=
    rebin_ok_and_integral (c9Source flux) PHOEBE_spectrum_dispersion.log
      4500 4800 10000 hwf (by norm_num) (by norm_num) (by norm_num) (by decide)
  refine ⟨Sr, hok, ?_, log_scenario_bound, hint, ?_⟩
  · rw [hdim, targetDim_scenario]
  · rw [hint, sub_self, abs_zero]
    positivity

unseal Rat.add Rat.sub Rat.mul Rat.inv in
/-- Witness for the amended C10: requests at `R = 99.5` and `R = 99.9`
share their ceilings and floors and select the same candidates. -/
theorem tag_matching_ceil_floor_invariant_witness :
    repositoryCandidates [sampleTag] (199/2) 5000 45 0 4500 4900
      = repositoryCandidates [sampleTag] (999/10) 5000 45 0 4500 4900 :=
  tag_matching_ceil_floor_invariant [sampleTag] (199/2) (999/10) 4500 4500
    4900 4900 5000 45 0 (by decide) (by decide) (by decide)

end PhoebeSpectra
